import Mathlib

/-!
Verification of the CTS test-case recorder, log-message, and parameter-builder
components, shallowly embedded from the repository sources:
  * `common/framework/logging/test_case_recorder.js` (recorder lifecycle),
  * `common/internal/logging/log_message.js` and
    `common/framework/logging/log_message.js` (log entries),
  * the parameter-space builder (modelled from the design document, see below).
JavaScript numbers used for timestamps are modelled as rationals; `undefined`
as `Option.none`; a thrown assertion as `Except.error`.
-/

namespace CTS

/-- A JavaScript exception value, as the recorder observes it: its `message`
string, its (possibly `undefined`) `stack` string, and whether it is an
`instanceof SkipTestCase` (the distinguished case-level skip signal from
`common/framework/fixture.js`). -/
structure ExceptionValue where
  message : String
  stack : Option String
  isSkipTestCase : Bool
deriving DecidableEq, Repr

/-- `LogMessageWithStack` from `common/internal/logging/log_message.js`:
a named log entry carrying the exception's message and stack, plus the
`firstLineOnlyMessage` field used by `setFirstLineOnly`/`toJSON`
(`undefined` until set). The `extra` field is not modelled. -/
structure LogMessageWithStack where
  name : String
  message : String
  stack : Option String
  firstLineOnlyMessage : Option String := none
deriving DecidableEq, Repr

/-- The constructor `new LogMessageWithStack(name, ex, includeStack = true)`
from `common/framework/logging/log_message.js` (the variant the recorder
uses): copies the exception's message, and its stack unless
`includeStack` is false. -/
def logMessage (name : String) (ex : ExceptionValue) (includeStack : Bool := true) :
    LogMessageWithStack :=
  { name := name
    message := ex.message
    stack := if includeStack then ex.stack else none
    firstLineOnlyMessage := none }

/-- The numeric `PassState` enum from `test_case_recorder.js`
(`pass = 0, skip = 1, warn = 2, fail = 3`). -/
inductive PassState
  | pass
  | skip
  | warn
  | fail
deriving DecidableEq, Repr

/-- The numeric value of a `PassState` (the enum's integer encoding). -/
def PassState.toNat : PassState → Nat
  | .pass => 0
  | .skip => 1
  | .warn => 2
  | .fail => 3

/-- The reverse enum mapping `PassState[state]` used by `finish()` to turn
the numeric state back into its string name. -/
def PassState.stateName : PassState → String
  | .pass => "pass"
  | .skip => "skip"
  | .warn => "warn"
  | .fail => "fail"

/-- `Math.max` on the numeric enum values, returning the higher-severity
state (this is the computation inside `setState`). -/
def PassState.max (a b : PassState) : PassState :=
  if a.toNat ≤ b.toNat then b else a

/-- The `logs` field of a `LiveTestCaseResult`. In JavaScript this field is
either still `undefined`, or holds an array *reference*: `finish()` assigns
`this.result.logs = this.logs`, making the field an alias of the recorder's
own live `logs` array, while `injectResult` may store some other concrete
array. The three possibilities are distinguished so that reads through the
field (`TestCaseRecorder.resultLogs`) reproduce the aliasing. -/
inductive ResultLogsField
  | unset
  | aliased
  | injected (logs : List LogMessageWithStack)
deriving DecidableEq, Repr

/-- The `LiveTestCaseResult` record owned by the Logger and written by the
recorder: `status` and `timems` are `undefined` until `finish()` or
`injectResult` writes them. -/
structure LiveTestCaseResult where
  status : Option String := none
  timems : Option ℚ := none
  logs : ResultLogsField := .unset
deriving DecidableEq, Repr

/-- A partial result record passed to `injectResult` (`Object.assign`
source): `none` means the key is absent from the partial record. -/
structure InjectedResult where
  status : Option String := none
  timems : Option ℚ := none
  logs : Option (List LogMessageWithStack) := none
deriving DecidableEq, Repr

/-- The `TestCaseRecorder` instance state: the result record it writes into,
the numeric pass state (initially `pass`), the start timestamp (initially
`-1`), the live log array (initially empty), and the debugging flag. -/
structure TestCaseRecorder where
  result : LiveTestCaseResult
  state : PassState := .pass
  startTime : ℚ := -1
  logs : List LogMessageWithStack := []
  debugging : Bool := false
deriving DecidableEq, Repr

/-- `new TestCaseRecorder(result, debugging)`. -/
def TestCaseRecorder.new (result : LiveTestCaseResult) (debugging : Bool) :
    TestCaseRecorder :=
  { result := result, debugging := debugging }

/-- Modelled from the spec: the `assert` utility from
`common/framework/util/util.js` is not under `src/`; per the design document
an assertion "fails loudly" when its condition is false, modelled as an
`Except.error` carrying the assertion message. -/
def assertCond (cond : Bool) (msg : String) : Except String Unit :=
  if cond then .ok () else .error msg

/-- `start()`: asserts `this.startTime < 0` (reuse forbidden) and records the
current timestamp. The external `now()` timing source (not under `src/`) is
modelled as the explicit argument `now`. -/
def TestCaseRecorder.start (r : TestCaseRecorder) (now : ℚ) :
    Except String TestCaseRecorder := do
  let _ ← assertCond (decide (r.startTime < 0)) "TestCaseRecorder cannot be reused"
  return { r with startTime := now }

/-- `finish()`: asserts `this.startTime >= 0`, computes the elapsed time
rounded up to the next microsecond (`Math.ceil(ms * 1000) / 1000`), converts
the numeric state to its string name, and assigns `this.result.logs =
this.logs` (an alias of the live log array, represented by `.aliased`). -/
def TestCaseRecorder.finish (r : TestCaseRecorder) (now : ℚ) :
    Except String TestCaseRecorder := do
  let _ ← assertCond (decide (0 ≤ r.startTime)) "finish() before start()"
  let timeMilliseconds := now - r.startTime
  return { r with result :=
    { r.result with
        timems := some ((⌈timeMilliseconds * 1000⌉ : ℚ) / 1000)
        status := some r.state.stateName
        logs := .aliased } }

/-- `injectResult(injectedResult)`: `Object.assign(this.result,
injectedResult)` — each key present in the partial record overwrites the
corresponding result field; absent keys leave the field untouched. -/
def TestCaseRecorder.injectResult (r : TestCaseRecorder) (p : InjectedResult) :
    TestCaseRecorder :=
  { r with result :=
    { status := match p.status with
        | some v => some v
        | none => r.result.status
      timems := match p.timems with
        | some v => some v
        | none => r.result.timems
      logs := match p.logs with
        | some ls => .injected ls
        | none => r.result.logs } }

/-- `setState(state)`: `this.state = Math.max(this.state, state)`. -/
def TestCaseRecorder.setState (r : TestCaseRecorder) (s : PassState) :
    TestCaseRecorder :=
  { r with state := r.state.max s }

/-- `debug(ex)`: returns immediately unless debugging is enabled; otherwise
pushes a `DEBUG` entry built with `includeStack = false`. -/
def TestCaseRecorder.debug (r : TestCaseRecorder) (ex : ExceptionValue) :
    TestCaseRecorder :=
  if r.debugging then
    { r with logs := r.logs ++ [logMessage "DEBUG" ex false] }
  else
    r

/-- `warn(ex)`: escalates to at least `warn` and pushes a `WARN` entry. -/
def TestCaseRecorder.warn (r : TestCaseRecorder) (ex : ExceptionValue) :
    TestCaseRecorder :=
  let r := r.setState .warn
  { r with logs := r.logs ++ [logMessage "WARN" ex] }

/-- `fail(ex)`: escalates to `fail` and pushes a `FAIL` entry. -/
def TestCaseRecorder.fail (r : TestCaseRecorder) (ex : ExceptionValue) :
    TestCaseRecorder :=
  let r := r.setState .fail
  { r with logs := r.logs ++ [logMessage "FAIL" ex] }

/-- `skipped(ex)`: escalates to at least `skip` and pushes a `SKIP` entry. -/
def TestCaseRecorder.skipped (r : TestCaseRecorder) (ex : ExceptionValue) :
    TestCaseRecorder :=
  let r := r.setState .skip
  { r with logs := r.logs ++ [logMessage "SKIP" ex] }

/-- `threw(ex)`: if `ex instanceof SkipTestCase`, delegates to `skipped`;
otherwise escalates to `fail` and pushes an `EXCEPTION` entry. -/
def TestCaseRecorder.threw (r : TestCaseRecorder) (ex : ExceptionValue) :
    TestCaseRecorder :=
  if ex.isSkipTestCase then
    r.skipped ex
  else
    let r := r.setState .fail
    { r with logs := r.logs ++ [logMessage "EXCEPTION" ex] }

/-- The list of log entries observable by reading `result.logs`: `none`
while the field is still `undefined`; the recorder's *current* live log
array when the field aliases it (post-`finish()`); the injected array when
`injectResult` replaced it. -/
def TestCaseRecorder.resultLogs (r : TestCaseRecorder) :
    Option (List LogMessageWithStack) :=
  match r.result.logs with
  | .unset => none
  | .aliased => some r.logs
  | .injected ls => some ls

/-- One of the five logging calls a running case can make on its recorder
between `start()` and `finish()`. -/
inductive RecCall
  | warn (ex : ExceptionValue)
  | fail (ex : ExceptionValue)
  | skipped (ex : ExceptionValue)
  | threw (ex : ExceptionValue)
  | debug (ex : ExceptionValue)
deriving DecidableEq, Repr

/-- Apply one logging call to the recorder. -/
def applyCall : RecCall → TestCaseRecorder → TestCaseRecorder
  | .warn ex, r => r.warn ex
  | .fail ex, r => r.fail ex
  | .skipped ex, r => r.skipped ex
  | .threw ex, r => r.threw ex
  | .debug ex, r => r.debug ex

/-- Run a sequence of logging calls left to right. -/
def runCalls (cs : List RecCall) (r : TestCaseRecorder) : TestCaseRecorder :=
  cs.foldl (fun r c => applyCall c r) r

/-- The severity a call contributes to the pass state: `warn`/`fail`/`skip`
escalate to their namesakes, `threw` contributes `skip` for the skip signal
and `fail` otherwise, and `debug` contributes nothing (`pass`). -/
def callSeverity : RecCall → PassState
  | .warn _ => .warn
  | .fail _ => .fail
  | .skipped _ => .skip
  | .threw ex => if ex.isSkipTestCase then .skip else .fail
  | .debug _ => .pass

/-- `message.split('\n')[0]`: the prefix of the message before its first
newline (the whole message when it has none). -/
def firstLine (s : String) : String :=
  ⟨s.data.takeWhile (fun c => c ≠ '\n')⟩

/-- `setFirstLineOnly(firstLineOnlyMessage)` from
`common/internal/logging/log_message.js`: `this.firstLineOnlyMessage ??=
firstLineOnlyMessage` — assigns only when the field is still `undefined`. -/
def LogMessageWithStack.setFirstLineOnly (l : LogMessageWithStack)
    (firstLineOnlyMessage : String) : LogMessageWithStack :=
  { l with firstLineOnlyMessage :=
      match l.firstLineOnlyMessage with
      | some m => some m
      | none => some firstLineOnlyMessage }

/-- `toJSON()` from `common/internal/logging/log_message.js`. The
`extractImportantStackTrace` utility (`common/internal/stack.js`, not under
`src/`; per the design document, a normalizer/trimmer for the captured
textual trace) is passed in as the function `extract`. A string field is
truthy exactly when it is defined and nonempty. -/
def LogMessageWithStack.toJSON (l : LogMessageWithStack)
    (extract : LogMessageWithStack → String) : String :=
  match l.firstLineOnlyMessage with
  | some flm =>
    let m := l.name
    let m := if l.message ≠ "" then m ++ ": " ++ firstLine l.message else m
    if flm ≠ "" then m ++ " (elided: " ++ flm ++ ")" else m
  | none =>
    let m := l.name
    let m := if l.message ≠ "" then m ++ ": " ++ l.message else m
    match l.stack with
    | some st => if st ≠ "" then m ++ "\n" ++ extract l else m
    | none => m

/-- A parameter value occurring in a builder axis: the claims' examples mix
integer- and string-valued axes. -/
inductive PValue
  | int (i : Int)
  | str (s : String)
deriving DecidableEq, Repr

/-- Modelled from the spec: one `combine(name, values)` axis of the
parameter-space builder (`common/framework/params_builder.ts` is not under
`src/`): a named dimension with a fixed finite sequence of values. -/
structure Axis (α : Type) where
  name : String
  values : List α
deriving DecidableEq, Repr

/-- Modelled from the spec: one fold step of the expansion algorithm —
`combine` "cartesian-multiplies the existing case sequence by the finite
values sequence under key name", merging axis values into each case record
one axis at a time in declaration order. -/
def combineStep {α : Type} (cases : List (List (String × α))) (ax : Axis α) :
    List (List (String × α)) :=
  cases.flatMap (fun c => ax.values.map (fun v => c ++ [(ax.name, v)]))

/-- Modelled from the spec: the expansion algorithm folds the operation
descriptors left-to-right over an initial sequence containing one empty
case. -/
def expandAxes {α : Type} (axes : List (Axis α)) : List (List (String × α)) :=
  axes.foldl combineStep [[]]

/-- Modelled from the spec: a builder chain with only `combine` operations —
the top-level axes declared before `beginSubcases()` and the subcase axes
declared after it. -/
structure BuilderChain (α : Type) where
  caseAxes : List (Axis α)
  subcaseAxes : List (Axis α)
deriving Repr

/-- Modelled from the spec: the nested run loop — "for each top-level case,
for each subcase of that case, execute once" — flattened into the executed
case sequence, each execution seeing the merged top-level and subcase
parameters. -/
def expandBuilder {α : Type} (b : BuilderChain α) : List (List (String × α)) :=
  (expandAxes b.caseAxes).flatMap
    (fun c => (expandAxes b.subcaseAxes).map (fun s => c ++ s))

/-- `Selects axes combo` says `combo` picks, in declaration order, exactly
one value out of each axis of `axes` (the spec's notion of one distinct
parameter combination of the axes). -/
inductive Selects {α : Type} : List (Axis α) → List (String × α) → Prop
  | nil : Selects [] []
  | cons {ax : Axis α} {axes : List (Axis α)} {v : α} {c : List (String × α)} :
      v ∈ ax.values → Selects axes c → Selects (ax :: axes) ((ax.name, v) :: c)

/-! Concrete fixtures used by witnesses and counterexamples. -/

/-- A sample non-skip exception carrying message `"w1"`. -/
def exW1 : ExceptionValue := { message := "w1", stack := some "sW", isSkipTestCase := false }

/-- A sample non-skip exception carrying message `"f1"`. -/
def exF1 : ExceptionValue := { message := "f1", stack := some "sF", isSkipTestCase := false }

/-- A sample `SkipTestCase` exception. -/
def exSkip1 : ExceptionValue := { message := "sk", stack := some "sS", isSkipTestCase := true }

/-- The recorder state reached by `new TestCaseRecorder({}, false)`,
`start()` at time `0`, `finish()` at time `5`. -/
def rFinishedC2 : TestCaseRecorder :=
  { result := { status := some "pass", timems := some 5, logs := .aliased }
    state := .pass
    startTime := 0
    logs := []
    debugging := false }

/-- The end-to-end run of C5's example: `start(0)`, `warn("w1")`,
`fail("f1")`, `finish(2)`. -/
def c5run : Except String TestCaseRecorder :=
  ((TestCaseRecorder.new {} false).start 0).bind
    (fun r => ((r.warn exW1).fail exF1).finish 2)

/-- The recorder state `c5run` ends in. -/
def c5final : TestCaseRecorder :=
  { result := { status := some "fail", timems := some 2, logs := .aliased }
    state := .fail
    startTime := 0
    logs := [logMessage "WARN" exW1, logMessage "FAIL" exF1]
    debugging := false }

/-- The C7 example chain:
`combine('x',[1,2]).beginSubcases().combine('y',['a','b'])`. -/
def c7builder : BuilderChain PValue :=
  { caseAxes := [{ name := "x", values := [.int 1, .int 2] }]
    subcaseAxes := [{ name := "y", values := [.str "a", .str "b"] }] }

/-- A concrete log message with a two-line message and a nonempty stack. -/
def lmC8 : LogMessageWithStack :=
  { name := "FAIL", message := "a\nb", stack := some "tr", firstLineOnlyMessage := none }

/-! Severity-order lemmas for the numeric `PassState` enum. -/

theorem PassState.toNat_max (a b : PassState) :
    (a.max b).toNat = Nat.max a.toNat b.toNat := by
  cases a <;> cases b <;> decide

theorem PassState.max_pass_right (a : PassState) : a.max .pass = a := by
  cases a <;> decide

theorem PassState.max_fail_left (a : PassState) : PassState.fail.max a = .fail := by
  cases a <;> decide

theorem PassState.max_fail_right (a : PassState) : a.max .fail = .fail := by
  cases a <;> decide

/-- Each logging call sets the recorder state to the `Math.max` of the old
state and the call's severity contribution. -/
theorem applyCall_state (c : RecCall) (r : TestCaseRecorder) :
    (applyCall c r).state = r.state.max (callSeverity c) := by
  cases c with
  | warn ex => rfl
  | fail ex => rfl
  | skipped ex => rfl
  | threw ex =>
    by_cases h : ex.isSkipTestCase
    · simp [applyCall, TestCaseRecorder.threw, TestCaseRecorder.skipped,
        TestCaseRecorder.setState, callSeverity, h]
    · simp [applyCall, TestCaseRecorder.threw, TestCaseRecorder.setState,
        callSeverity, h]
  | debug ex =>
    have hdbg : (r.debug ex).state = r.state := by
      unfold TestCaseRecorder.debug
      split <;> rfl
    simp [applyCall, hdbg, callSeverity, PassState.max_pass_right]

/-- No logging call touches the fields of the result record itself. -/
theorem applyCall_result (c : RecCall) (r : TestCaseRecorder) :
    (applyCall c r).result = r.result := by
  cases c with
  | warn ex => rfl
  | fail ex => rfl
  | skipped ex => rfl
  | threw ex =>
    by_cases h : ex.isSkipTestCase <;>
      simp [applyCall, TestCaseRecorder.threw, TestCaseRecorder.skipped,
        TestCaseRecorder.setState, h]
  | debug ex =>
    show (r.debug ex).result = r.result
    unfold TestCaseRecorder.debug
    split <;> rfl

/-- Each logging call only appends to the live log array. -/
theorem applyCall_logs_append (c : RecCall) (r : TestCaseRecorder) :
    ∃ tail, (applyCall c r).logs = r.logs ++ tail := by
  cases c with
  | warn ex => exact ⟨_, rfl⟩
  | fail ex => exact ⟨_, rfl⟩
  | skipped ex => exact ⟨_, rfl⟩
  | threw ex =>
    by_cases h : ex.isSkipTestCase
    · refine ⟨[logMessage "SKIP" ex], ?_⟩
      simp [applyCall, TestCaseRecorder.threw, TestCaseRecorder.skipped,
        TestCaseRecorder.setState, h]
    · refine ⟨[logMessage "EXCEPTION" ex], ?_⟩
      simp [applyCall, TestCaseRecorder.threw, TestCaseRecorder.setState, h]
  | debug ex =>
    show ∃ tail, (r.debug ex).logs = r.logs ++ tail
    unfold TestCaseRecorder.debug
    split
    · exact ⟨_, rfl⟩
    · exact ⟨[], by simp⟩

/-- The state after a call sequence is the left fold of `Math.max` over the
calls' severity contributions. -/
theorem runCalls_state (cs : List RecCall) (r : TestCaseRecorder) :
    (runCalls cs r).state = (cs.map callSeverity).foldl PassState.max r.state := by
  induction cs generalizing r with
  | nil => rfl
  | cons c cs ih =>
    simp only [runCalls, List.foldl_cons, List.map_cons]
    rw [show (List.foldl (fun r c => applyCall c r) (applyCall c r) cs) =
      runCalls cs (applyCall c r) from rfl, ih, applyCall_state]

theorem foldl_max_from_fail (l : List PassState) :
    l.foldl PassState.max .fail = .fail := by
  induction l with
  | nil => rfl
  | cons a l ih => simpa [PassState.max_fail_left] using ih

/-- Folding `Math.max` over a severity list containing `fail` yields `fail`
no matter the starting state. -/
theorem foldl_max_of_fail_mem (l : List PassState) (s : PassState)
    (h : PassState.fail ∈ l) : l.foldl PassState.max s = .fail := by
  induction l generalizing s with
  | nil => cases h
  | cons a l ih =>
    rcases List.mem_cons.mp h with rfl | h'
    · simpa [PassState.max_fail_right] using foldl_max_from_fail l
    · exact ih _ h'

theorem foldl_passState_toNat (l : List PassState) (s : PassState) :
    (l.foldl PassState.max s).toNat = (l.map PassState.toNat).foldl Nat.max s.toNat := by
  induction l generalizing s with
  | nil => rfl
  | cons a l ih => simp [List.foldl_cons, ih, PassState.toNat_max]

theorem foldl_nat_max_eq_max_foldr (l : List Nat) (a : Nat) :
    l.foldl Nat.max a = Nat.max a (l.foldr Nat.max 0) := by
  induction l generalizing a with
  | nil => simp
  | cons x l ih => simp [List.foldl_cons, List.foldr_cons, ih, Nat.max_assoc]

/-- C1: for every recorder and every sequence of `warn`/`fail`/`skipped`/
`threw`/`debug` calls, the status never decreases under the order
`pass < skip < warn < fail` (each call can only raise the numeric state),
the final state is the `Math.max`-fold of the calls' severities over the
starting state — so a freshly started recorder (state `pass`) ends at the
maximum severity among the calls made, `pass` if there are none — and any
permutation of `fail`, `warn`, `skipped` on the same instance ends at
`fail`. -/
theorem C1_status_escalation (r : TestCaseRecorder) (cs : List RecCall) :
    (∀ c : RecCall, r.state.toNat ≤ (applyCall c r).state.toNat) ∧
    (runCalls cs r).state = (cs.map callSeverity).foldl PassState.max r.state ∧
    (runCalls cs r).state.toNat =
      Nat.max r.state.toNat ((cs.map (fun c => (callSeverity c).toNat)).foldr Nat.max 0) ∧
    (∀ (e1 e2 e3 : ExceptionValue),
      cs.Perm [RecCall.fail e1, RecCall.warn e2, RecCall.skipped e3] →
      (runCalls cs r).state = .fail) := by
  refine ⟨?_, runCalls_state cs r, ?_, ?_⟩
  · intro c
    rw [applyCall_state, PassState.toNat_max]
    exact Nat.le_max_left _ _
  · rw [runCalls_state, foldl_passState_toNat, foldl_nat_max_eq_max_foldr]
    congr 1
    simp [List.foldr_map]
  · intro e1 e2 e3 hperm
    rw [runCalls_state]
    refine foldl_max_of_fail_mem _ _ ?_
    have : RecCall.fail e1 ∈ cs := hperm.mem_iff.mpr (by simp)
    exact List.mem_map.mpr ⟨RecCall.fail e1, this, rfl⟩

/-- Witness for C1 at a concrete input: a skipped-fail-warn permutation on a
fresh recorder ends at status `fail`, and one `warn` step escalates the
state. -/
theorem C1_status_escalation_witness :
    (TestCaseRecorder.new {} false).state.toNat ≤
      (applyCall (RecCall.warn exW1) (TestCaseRecorder.new {} false)).state.toNat ∧
    (runCalls [RecCall.skipped exSkip1, RecCall.fail exF1, RecCall.warn exW1]
      (TestCaseRecorder.new {} false)).state = .fail :=
  ⟨(C1_status_escalation (TestCaseRecorder.new {} false) []).1 (RecCall.warn exW1),
   (C1_status_escalation (TestCaseRecorder.new {} false)
      [RecCall.skipped exSkip1, RecCall.fail exF1, RecCall.warn exW1]).2.2.2
      exF1 exW1 exSkip1 (by decide)⟩

/-- Counterexample to C2 as stated: after `start(0)` and `finish(5)` the
finalized record shows an empty log list, but a subsequent `warn` call — via
the array alias installed by `finish()` — makes a `WARN` entry visible
through `result.logs`, so the finalized record is mutated. -/
theorem C2_counterexample :
    ((TestCaseRecorder.new {} false).start 0).bind (fun r => r.finish 5) = .ok rFinishedC2 ∧
    rFinishedC2.resultLogs = some [] ∧
    (rFinishedC2.warn exW1).resultLogs = some [logMessage "WARN" exW1] ∧
    (rFinishedC2.warn exW1).resultLogs ≠ rFinishedC2.resultLogs := by
  refine ⟨?_, rfl, rfl, by decide⟩
  simp only [TestCaseRecorder.new, TestCaseRecorder.start, TestCaseRecorder.finish,
    assertCond, bind, Except.bind, pure, Except.pure, Functor.map, Except.map,
    decide_eq_true_eq, rFinishedC2, PassState.stateName]
  norm_num

/-- C2 amended: once `finish()` has been called, the finalized `status` and
`timems` (indeed every field of the result record itself) are never changed
by a subsequent `warn`/`fail`/`skipped`/`threw`/`debug` call; however
`finish()` stores a *reference* to the live log array in `result.logs`, so
such a call only ever appends to that array — the appended entries are
visible through the finalized record. -/
theorem C2_finalized_fields_amended (r : TestCaseRecorder) (c : RecCall) :
    (applyCall c r).result.status = r.result.status ∧
    (applyCall c r).result.timems = r.result.timems ∧
    (applyCall c r).result.logs = r.result.logs ∧
    ∃ tail, (applyCall c r).logs = r.logs ++ tail := by
  refine ⟨?_, ?_, ?_, applyCall_logs_append c r⟩ <;> rw [applyCall_result]

/-- C3: on a fresh recorder (startTime = −1) `start()` does not assert and
records the timestamp; once `start()` has run (at a nonnegative `now()`
time), any further `start()` asserts (`TestCaseRecorder cannot be reused`)
while `finish()` succeeds; and `finish()` on a fresh recorder asserts
(`finish() before start()`). -/
theorem C3_start_finish_assertions (res : LiveTestCaseResult) (d : Bool) (t t' : ℚ)
    (ht : 0 ≤ t) :
    ((TestCaseRecorder.new res d).start t =
        .ok { result := res, state := .pass, startTime := t, logs := [], debugging := d }) ∧
    (∀ t'' : ℚ,
      ({ result := res, state := .pass, startTime := t, logs := [], debugging := d }
          : TestCaseRecorder).start t'' =
        .error "TestCaseRecorder cannot be reused") ∧
    (∃ r'', ({ result := res, state := .pass, startTime := t, logs := [], debugging := d }
          : TestCaseRecorder).finish t' = .ok r'') ∧
    ((TestCaseRecorder.new res d).finish t' = .error "finish() before start()") := by
  have hfresh : ((-1:ℚ) < 0) := by norm_num
  have hfresh' : ¬ ((0:ℚ) ≤ -1) := by norm_num
  refine ⟨?_, ?_, ?_, ?_⟩
  · simp [TestCaseRecorder.new, TestCaseRecorder.start, assertCond, bind, Except.bind,
      pure, Except.pure, hfresh]
  · intro t''
    simp [TestCaseRecorder.start, assertCond, bind, Except.bind, pure, Except.pure,
      not_lt.mpr ht]
  · refine ⟨⟨{ res with
               timems := some ((⌈(t' - t) * 1000⌉ : ℚ) / 1000),
               status := some "pass",
               logs := .aliased }, .pass, t, [], d⟩, ?_⟩
    simp [TestCaseRecorder.finish, assertCond, bind, Except.bind, pure, Except.pure, ht,
      PassState.stateName]
  · simp [TestCaseRecorder.new, TestCaseRecorder.finish, assertCond, bind, Except.bind,
      pure, Except.pure, hfresh']

/-- Witness for C3 at `t = 0`, `t' = 7`. -/
theorem C3_start_finish_assertions_witness :
    ((TestCaseRecorder.new {} false).start 0 =
        .ok { result := {}, state := .pass, startTime := 0, logs := [], debugging := false }) ∧
    (({ result := {}, state := .pass, startTime := 0, logs := [], debugging := false }
        : TestCaseRecorder).start 3 = .error "TestCaseRecorder cannot be reused") ∧
    ((TestCaseRecorder.new {} false).finish 7 = .error "finish() before start()") := by
  obtain ⟨h1, h2, _, h4⟩ := C3_start_finish_assertions {} false 0 7 (by norm_num)
  exact ⟨h1, h2 3, h4⟩

/-- C4: `threw(ex)` with a `SkipTestCase` escalates the state by `skip`
(so the state is at least `skip`) and appends a `SKIP` entry carrying the
exception's message and stack; with any other exception it escalates the
state to `fail` and appends an `EXCEPTION` entry carrying the exception's
original message and stack. -/
theorem C4_threw_classification (r : TestCaseRecorder) (ex : ExceptionValue) :
    (ex.isSkipTestCase = true →
      (r.threw ex).state = r.state.max .skip ∧
      PassState.skip.toNat ≤ (r.threw ex).state.toNat ∧
      (r.threw ex).logs = r.logs ++
        [{ name := "SKIP", message := ex.message, stack := ex.stack,
           firstLineOnlyMessage := none }]) ∧
    (ex.isSkipTestCase = false →
      (r.threw ex).state = .fail ∧
      (r.threw ex).logs = r.logs ++
        [{ name := "EXCEPTION", message := ex.message, stack := ex.stack,
           firstLineOnlyMessage := none }]) := by
  constructor
  · intro h
    have hst : (r.threw ex).state = r.state.max .skip := by
      simp [TestCaseRecorder.threw, TestCaseRecorder.skipped, TestCaseRecorder.setState, h]
    refine ⟨hst, ?_, ?_⟩
    · rw [hst, PassState.toNat_max]
      exact Nat.le_max_right _ _
    · simp [TestCaseRecorder.threw, TestCaseRecorder.skipped, TestCaseRecorder.setState,
        h, logMessage]
  · intro h
    constructor
    · simp [TestCaseRecorder.threw, TestCaseRecorder.setState, h, PassState.max_fail_right]
    · simp [TestCaseRecorder.threw, TestCaseRecorder.setState, h, logMessage]

/-- Witness for C4: a concrete skip exception and a concrete plain
exception. -/
theorem C4_threw_classification_witness :
    ((TestCaseRecorder.new {} false).threw exSkip1).state =
      (TestCaseRecorder.new {} false).state.max .skip ∧
    ((TestCaseRecorder.new {} false).threw exW1).state = .fail ∧
    ((TestCaseRecorder.new {} false).threw exW1).logs =
      [{ name := "EXCEPTION", message := "w1", stack := some "sW",
         firstLineOnlyMessage := none }] :=
  ⟨((C4_threw_classification (TestCaseRecorder.new {} false) exSkip1).1 rfl).1,
   ((C4_threw_classification (TestCaseRecorder.new {} false) exW1).2 rfl).1,
   ((C4_threw_classification (TestCaseRecorder.new {} false) exW1).2 rfl).2⟩

/-- C5: when `start()` happened at `t0 = startTime ≥ 0` and `finish(t1)` is
called with `t1 ≥ t0`, `finish` succeeds and sets `result.timems` to
`⌈(t1−t0)·1000⌉/1000` milliseconds (which is nonnegative), `result.status`
to the string name of the numeric state, and `result.logs` to the recorder's
log entries in the order their producing calls occurred; and the concrete
run `warn("w1")`, `fail("f1")`, `finish()` reports status `"fail"`, the warn
entry before the fail entry, and a nonnegative `timems`. -/
theorem C5_finish_result :
    (∀ (r : TestCaseRecorder) (t1 : ℚ), 0 ≤ r.startTime → r.startTime ≤ t1 →
      ∃ r', r.finish t1 = .ok r' ∧
        r'.result.timems = some ((⌈(t1 - r.startTime) * 1000⌉ : ℚ) / 1000) ∧
        (∀ q, r'.result.timems = some q → 0 ≤ q) ∧
        r'.result.status = some r.state.stateName ∧
        r'.resultLogs = some r.logs) ∧
    (∃ rr, c5run = .ok rr ∧
      rr.result.status = some "fail" ∧
      rr.resultLogs = some [logMessage "WARN" exW1, logMessage "FAIL" exF1] ∧
      ∃ q, rr.result.timems = some q ∧ 0 ≤ q) := by
  constructor
  · intro r t1 h0 h1
    refine ⟨{ r with result :=
        { r.result with
            timems := some ((⌈(t1 - r.startTime) * 1000⌉ : ℚ) / 1000)
            status := some r.state.stateName
            logs := .aliased } }, ?_, rfl, ?_, rfl, rfl⟩
    · simp [TestCaseRecorder.finish, assertCond, bind, Except.bind, pure, Except.pure, h0]
    · intro q hq
      have hq' : q = (⌈(t1 - r.startTime) * 1000⌉ : ℚ) / 1000 := by
        simpa using hq.symm
      subst hq'
      have hΔ : (0:ℚ) ≤ (t1 - r.startTime) * 1000 := by
        have : (0:ℚ) ≤ t1 - r.startTime := by linarith
        positivity
      have hceil : (0:ℤ) ≤ ⌈(t1 - r.startTime) * 1000⌉ := Int.ceil_nonneg hΔ
      have : (0:ℚ) ≤ (⌈(t1 - r.startTime) * 1000⌉ : ℚ) := by exact_mod_cast hceil
      positivity
  · refine ⟨c5final, ?_, rfl, rfl, ⟨2, rfl, by norm_num⟩⟩
    simp only [c5run, c5final, TestCaseRecorder.new, TestCaseRecorder.start,
      TestCaseRecorder.warn, TestCaseRecorder.fail, TestCaseRecorder.finish,
      TestCaseRecorder.setState, assertCond, bind, Except.bind, pure, Except.pure,
      decide_eq_true_eq, PassState.stateName, PassState.max, PassState.toNat]
    norm_num

/-- Witness for C5's universally quantified part at a concrete started
recorder (`startTime = 0`, `finish` at `t1 = 5`). -/
theorem C5_finish_result_witness :
    ∃ r', rFinishedC2.finish 5 = .ok r' ∧
      r'.result.timems = some ((⌈((5:ℚ) - rFinishedC2.startTime) * 1000⌉ : ℚ) / 1000) ∧
      (∀ q, r'.result.timems = some q → 0 ≤ q) ∧
      r'.result.status = some rFinishedC2.state.stateName ∧
      r'.resultLogs = some rFinishedC2.logs :=
  C5_finish_result.1 rFinishedC2 5 (by norm_num [rFinishedC2]) (by norm_num [rFinishedC2])

/-- C6: `debug(ex)` is a complete no-op when the recorder was constructed
with debugging disabled; with debugging enabled it appends a `DEBUG` entry
(built without a stack); and in both cases it leaves the status unchanged. -/
theorem C6_debug_gated (r : TestCaseRecorder) (ex : ExceptionValue) :
    (r.debugging = false → r.debug ex = r) ∧
    (r.debugging = true → r.debug ex =
      { r with logs := r.logs ++
        [{ name := "DEBUG", message := ex.message, stack := none,
           firstLineOnlyMessage := none }] }) ∧
    (r.debug ex).state = r.state := by
  refine ⟨?_, ?_, ?_⟩
  · intro h
    simp [TestCaseRecorder.debug, h]
  · intro h
    simp [TestCaseRecorder.debug, h, logMessage]
  · unfold TestCaseRecorder.debug
    split <;> rfl

/-- Witness for C6 on recorders with debugging disabled and enabled. -/
theorem C6_debug_gated_witness :
    (TestCaseRecorder.new {} false).debug exW1 = TestCaseRecorder.new {} false ∧
    (TestCaseRecorder.new {} true).debug exW1 =
      { TestCaseRecorder.new {} true with logs :=
        [{ name := "DEBUG", message := "w1", stack := none,
           firstLineOnlyMessage := none }] } :=
  ⟨(C6_debug_gated (TestCaseRecorder.new {} false) exW1).1 rfl,
   by
    have h := (C6_debug_gated (TestCaseRecorder.new {} true) exW1).2.1 rfl
    simpa using h⟩

/-- C9: `injectResult(p)` overwrites exactly the result fields named in `p`
(absent fields keep their values), and leaves the recorder's internal state,
log list, start time and debugging flag untouched — no escalation rule is
applied. -/
theorem C9_injectResult_frame (r : TestCaseRecorder) (p : InjectedResult) :
    (r.injectResult p).state = r.state ∧
    (r.injectResult p).logs = r.logs ∧
    (r.injectResult p).startTime = r.startTime ∧
    (r.injectResult p).debugging = r.debugging ∧
    (∀ v, p.status = some v → (r.injectResult p).result.status = some v) ∧
    (p.status = none → (r.injectResult p).result.status = r.result.status) ∧
    (∀ q, p.timems = some q → (r.injectResult p).result.timems = some q) ∧
    (p.timems = none → (r.injectResult p).result.timems = r.result.timems) ∧
    (∀ ls, p.logs = some ls → (r.injectResult p).result.logs = .injected ls) ∧
    (p.logs = none → (r.injectResult p).result.logs = r.result.logs) := by
  refine ⟨rfl, rfl, rfl, rfl, ?_, ?_, ?_, ?_, ?_, ?_⟩ <;>
    first
      | (intro v h; simp [TestCaseRecorder.injectResult, h])
      | (intro h; simp [TestCaseRecorder.injectResult, h])

/-- Witness for C9: injecting only a status overwrites the status and
nothing else. -/
theorem C9_injectResult_frame_witness :
    (rFinishedC2.injectResult { status := some "warn" }).state = rFinishedC2.state ∧
    (rFinishedC2.injectResult { status := some "warn" }).logs = rFinishedC2.logs ∧
    (rFinishedC2.injectResult { status := some "warn" }).result.status = some "warn" ∧
    (rFinishedC2.injectResult { status := some "warn" }).result.timems =
      rFinishedC2.result.timems ∧
    (rFinishedC2.injectResult { status := some "warn" }).result.logs =
      rFinishedC2.result.logs := by
  obtain ⟨h1, h2, _, _, h5, _, _, h8, _, h10⟩ :=
    C9_injectResult_frame rFinishedC2 { status := some "warn" }
  exact ⟨h1, h2, h5 "warn" rfl, h8 rfl, h10 rfl⟩

/-! Parameter-space builder lemmas. -/

theorem combineStep_cons {α : Type} (c : List (String × α))
    (cs : List (List (String × α))) (ax : Axis α) :
    combineStep (c :: cs) ax =
      ax.values.map (fun v => c ++ [(ax.name, v)]) ++ combineStep cs ax := by
  simp [combineStep]

theorem mem_combineStep {α : Type} {c' : List (String × α)}
    {cs : List (List (String × α))} {ax : Axis α} :
    c' ∈ combineStep cs ax ↔
      ∃ c0 ∈ cs, ∃ v ∈ ax.values, c' = c0 ++ [(ax.name, v)] := by
  constructor
  · intro h
    rcases List.mem_flatMap.mp h with ⟨c0, hc0, hm⟩
    rcases List.mem_map.mp hm with ⟨v, hv, heq⟩
    exact ⟨c0, hc0, v, hv, heq.symm⟩
  · rintro ⟨c0, hc0, v, hv, rfl⟩
    exact List.mem_flatMap.mpr ⟨c0, hc0, List.mem_map.mpr ⟨v, hv, rfl⟩⟩

theorem length_combineStep {α : Type} (cs : List (List (String × α))) (ax : Axis α) :
    (combineStep cs ax).length = cs.length * ax.values.length := by
  induction cs with
  | nil => simp [combineStep]
  | cons c cs ih =>
    rw [combineStep_cons]
    simp only [List.length_append, List.length_map, List.length_cons, ih]
    ring

theorem length_foldl_combineStep {α : Type} (axes : List (Axis α)) :
    ∀ cs : List (List (String × α)),
      (axes.foldl combineStep cs).length =
        cs.length * (axes.map (fun ax => ax.values.length)).prod := by
  induction axes with
  | nil => intro cs; simp
  | cons ax axes ih =>
    intro cs
    rw [List.foldl_cons, ih, length_combineStep]
    simp [Nat.mul_assoc]

theorem selects_nil_iff {α : Type} (c : List (String × α)) :
    Selects [] c ↔ c = [] := by
  constructor
  · intro h
    cases h
    rfl
  · intro h
    subst h
    exact Selects.nil

theorem Selects.length_eq {α : Type} {axes : List (Axis α)} {c : List (String × α)}
    (h : Selects axes c) : c.length = axes.length := by
  induction h with
  | nil => rfl
  | cons _ _ ih => simp [ih]

theorem mem_foldl_combineStep {α : Type} (axes : List (Axis α)) :
    ∀ (cs : List (List (String × α))) (c : List (String × α)),
      c ∈ axes.foldl combineStep cs ↔
        ∃ c0 ∈ cs, ∃ tail, Selects axes tail ∧ c = c0 ++ tail := by
  induction axes with
  | nil =>
    intro cs c
    simp only [List.foldl_nil]
    constructor
    · intro h
      exact ⟨c, h, [], Selects.nil, by simp⟩
    · rintro ⟨c0, hc0, tail, hsel, rfl⟩
      rw [(selects_nil_iff tail).mp hsel]
      simpa using hc0
  | cons ax axes ih =>
    intro cs c
    rw [List.foldl_cons, ih]
    constructor
    · rintro ⟨c0', hc0', tail, hsel, rfl⟩
      rcases mem_combineStep.mp hc0' with ⟨c0, hc0, v, hv, rfl⟩
      refine ⟨c0, hc0, (ax.name, v) :: tail, Selects.cons hv hsel, ?_⟩
      simp
    · rintro ⟨c0, hc0, tail, hsel, rfl⟩
      cases hsel with
      | cons hv hs =>
        refine ⟨c0 ++ [(ax.name, _)], mem_combineStep.mpr ⟨c0, hc0, _, hv, rfl⟩, _, hs, ?_⟩
        simp

theorem mem_expandAxes {α : Type} {axes : List (Axis α)} {c : List (String × α)} :
    c ∈ expandAxes axes ↔ Selects axes c := by
  unfold expandAxes
  rw [mem_foldl_combineStep]
  constructor
  · rintro ⟨c0, hc0, tail, hsel, rfl⟩
    have : c0 = [] := by simpa using hc0
    subst this
    simpa using hsel
  · intro h
    exact ⟨[], by simp, c, h, by simp⟩

theorem length_of_mem_expandAxes {α : Type} {axes : List (Axis α)}
    {c : List (String × α)} (h : c ∈ expandAxes axes) : c.length = axes.length :=
  (mem_expandAxes.mp h).length_eq

theorem nodup_combineStep {α : Type} {cs : List (List (String × α))} {ax : Axis α}
    (hcs : cs.Nodup) (hvals : ax.values.Nodup) : (combineStep cs ax).Nodup := by
  rw [combineStep, List.nodup_flatMap]
  constructor
  · intro c _
    refine hvals.map ?_
    intro a b hab
    have := List.append_cancel_left hab
    simpa using this
  · refine hcs.imp ?_
    intro c c' hne x hx hx'
    rcases List.mem_map.mp hx with ⟨v, _, rfl⟩
    rcases List.mem_map.mp hx' with ⟨v', _, heq⟩
    have := (List.append_inj' heq (by simp)).1
    exact hne this.symm

theorem nodup_foldl_combineStep {α : Type} (axes : List (Axis α)) :
    ∀ cs : List (List (String × α)), (∀ ax ∈ axes, ax.values.Nodup) → cs.Nodup →
      (axes.foldl combineStep cs).Nodup := by
  induction axes with
  | nil => intro cs _ hcs; simpa using hcs
  | cons ax axes ih =>
    intro cs hax hcs
    rw [List.foldl_cons]
    exact ih _ (fun a ha => hax a (List.mem_cons_of_mem _ ha))
      (nodup_combineStep hcs (hax ax (List.mem_cons_self _ _)))

theorem length_flatMap_const {β γ : Type} (l : List β) (f : β → List γ) (k : Nat)
    (h : ∀ x ∈ l, (f x).length = k) : (l.flatMap f).length = l.length * k := by
  induction l with
  | nil => simp
  | cons x l ih =>
    rw [List.flatMap_cons]
    simp only [List.length_append, List.length_cons,
      h x (List.mem_cons_self _ _), ih (fun y hy => h y (List.mem_cons_of_mem _ hy))]
    ring

/-- C7: for a filter-free builder chain with top-level `combine` axes of
sizes `a1..aN` and subcase axes of sizes `b1..bM`, the expansion has exactly
`(∏ai) × (∏bj)` cases; it has no duplicate case when each axis's value list
has none (so each distinct combination occurs exactly once); a case record
appears in the expansion exactly when it selects one value per axis, in
declaration order, top-level axes first; and the example chain
`combine('x',[1,2]).beginSubcases().combine('y',['a','b'])` expands to
exactly the four cases `(x=1,y=a),(x=1,y=b),(x=2,y=a),(x=2,y=b)` in that
order. -/
theorem C7_builder_expansion :
    (∀ (α : Type) (b : BuilderChain α),
      (expandBuilder b).length =
        (b.caseAxes.map (fun ax => ax.values.length)).prod *
          (b.subcaseAxes.map (fun ax => ax.values.length)).prod) ∧
    (∀ (α : Type) (b : BuilderChain α),
      (∀ ax ∈ b.caseAxes, ax.values.Nodup) →
      (∀ ax ∈ b.subcaseAxes, ax.values.Nodup) →
      (expandBuilder b).Nodup) ∧
    (∀ (α : Type) (b : BuilderChain α) (combo : List (String × α)),
      combo ∈ expandBuilder b ↔
        ∃ ct cs, combo = ct ++ cs ∧ Selects b.caseAxes ct ∧ Selects b.subcaseAxes cs) ∧
    expandBuilder c7builder =
      [[("x", .int 1), ("y", .str "a")], [("x", .int 1), ("y", .str "b")],
       [("x", .int 2), ("y", .str "a")], [("x", .int 2), ("y", .str "b")]] := by
  refine ⟨?_, ?_, ?_, by decide⟩
  · intro α b
    unfold expandBuilder
    rw [length_flatMap_const _ _ (expandAxes b.subcaseAxes).length
      (fun ct _ => by simp)]
    unfold expandAxes
    rw [length_foldl_combineStep, length_foldl_combineStep]
    simp
  · intro α b hcase hsub
    unfold expandBuilder
    rw [List.nodup_flatMap]
    constructor
    · intro ct _
      refine (nodup_foldl_combineStep _ _ hsub (by simp)).map ?_
      intro s s' hss
      exact List.append_cancel_left hss
    · refine (nodup_foldl_combineStep _ _ hcase (by simp)).imp ?_
      intro ct ct' hne x hx hx'
      rcases List.mem_map.mp hx with ⟨s, hs, rfl⟩
      rcases List.mem_map.mp hx' with ⟨s', hs', heq⟩
      have hlen : s'.length = s.length := by
        rw [length_of_mem_expandAxes hs, length_of_mem_expandAxes hs']
      have := (List.append_inj' heq hlen).1
      exact hne this.symm
  · intro α b combo
    unfold expandBuilder
    constructor
    · intro h
      rcases List.mem_flatMap.mp h with ⟨ct, hct, hm⟩
      rcases List.mem_map.mp hm with ⟨s, hs, heq⟩
      exact ⟨ct, s, heq.symm, mem_expandAxes.mp hct, mem_expandAxes.mp hs⟩
    · rintro ⟨ct, s, rfl, hct, hs⟩
      exact List.mem_flatMap.mpr
        ⟨ct, mem_expandAxes.mpr hct, List.mem_map.mpr ⟨s, mem_expandAxes.mpr hs, rfl⟩⟩

/-- Witness for C7 at the concrete example chain: its four hypotheses-laden
conjuncts instantiated at `c7builder`. -/
theorem C7_builder_expansion_witness :
    (expandBuilder c7builder).length = 4 ∧
    (expandBuilder c7builder).Nodup ∧
    [("x", PValue.int 1), ("y", PValue.str "a")] ∈ expandBuilder c7builder := by
  refine ⟨?_, C7_builder_expansion.2.1 PValue c7builder (by decide) (by decide), ?_⟩
  · rw [C7_builder_expansion.1 PValue c7builder]
    rfl
  · refine (C7_builder_expansion.2.2.1 PValue c7builder _).mpr
      ⟨[("x", PValue.int 1)], [("y", PValue.str "a")], rfl, ?_, ?_⟩
    · exact Selects.cons (by decide) Selects.nil
    · exact Selects.cons (by decide) Selects.nil

/-- Counterexample to C8 as stated: on a message `"a\nb"` with stack `"tr"`,
after `setFirstLineOnly("known")` the serialization is
`"FAIL: a (elided: known)"` — the severity name plus the first line of the
message *plus an elision annotation*, not the severity name plus only the
first line of the message. -/
theorem C8_counterexample :
    (lmC8.setFirstLineOnly "known").toJSON (fun _ => "tr") = "FAIL: a (elided: known)" ∧
    (lmC8.setFirstLineOnly "known").toJSON (fun _ => "tr") ≠ "FAIL: a" := by
  constructor <;> decide

/-- C8 amended: for a log message with nonempty message and stack on which
`setFirstLineOnly` has not yet been set: after `setFirstLineOnly(s)`,
`toJSON()` is the severity name plus only the first line of the message with
no stack trace, *plus an ` (elided: s)` annotation when `s` is nonempty*;
when `setFirstLineOnly` is never called, `toJSON()` is the severity name
plus the full message followed by the extracted stack trace. -/
theorem C8_toJSON_amended (l : LogMessageWithStack) (s : String)
    (extract : LogMessageWithStack → String)
    (hflo : l.firstLineOnlyMessage = none)
    (hmsg : l.message ≠ "")
    (hstack : ∃ st, l.stack = some st ∧ st ≠ "") :
    (s ≠ "" → (l.setFirstLineOnly s).toJSON extract =
      l.name ++ ": " ++ firstLine l.message ++ " (elided: " ++ s ++ ")") ∧
    (s = "" → (l.setFirstLineOnly s).toJSON extract =
      l.name ++ ": " ++ firstLine l.message) ∧
    l.toJSON extract = l.name ++ ": " ++ l.message ++ "\n" ++ extract l := by
  obtain ⟨st, hst, hstne⟩ := hstack
  refine ⟨?_, ?_, ?_⟩
  · intro hs
    simp [LogMessageWithStack.setFirstLineOnly, LogMessageWithStack.toJSON, hflo, hmsg, hs]
  · intro hs
    subst hs
    simp [LogMessageWithStack.setFirstLineOnly, LogMessageWithStack.toJSON, hflo, hmsg]
  · simp [LogMessageWithStack.toJSON, hflo, hmsg, hst, hstne]

/-- Witness for C8's amended statement at the concrete message `lmC8` with
`s = "known"`. -/
theorem C8_toJSON_amended_witness :
    (lmC8.setFirstLineOnly "known").toJSON (fun _ => "TRACE") =
      lmC8.name ++ ": " ++ firstLine lmC8.message ++ " (elided: " ++ "known" ++ ")" ∧
    lmC8.toJSON (fun _ => "TRACE") =
      lmC8.name ++ ": " ++ lmC8.message ++ "\n" ++ "TRACE" := by
  have h := C8_toJSON_amended lmC8 "known" (fun _ => "TRACE") rfl (by decide)
    ⟨"tr", rfl, by decide⟩
  exact ⟨h.1 (by decide), h.2.2⟩

/-- C10: `setFirstLineOnly` is first-write-wins — a second call with any
message leaves the whole record, and hence the `toJSON()` output for every
stack extractor, unchanged. -/
theorem C10_setFirstLineOnly_first_write_wins (l : LogMessageWithStack) (s0 s : String) :
    (l.setFirstLineOnly s0).setFirstLineOnly s = l.setFirstLineOnly s0 ∧
    ∀ extract, ((l.setFirstLineOnly s0).setFirstLineOnly s).toJSON extract =
      (l.setFirstLineOnly s0).toJSON extract := by
  have h1 : (l.setFirstLineOnly s0).setFirstLineOnly s = l.setFirstLineOnly s0 := by
    cases h : l.firstLineOnlyMessage <;>
      simp [LogMessageWithStack.setFirstLineOnly, h]
  exact ⟨h1, fun extract => by rw [h1]⟩

end CTS
